import Mathlib

/-!
Verification development for the hinted-compilation subsystem of the
Nuitka/NUITKA-Utilities repository: the trace-log event reader, the recursive
call-hierarchy analyzer and its file normalizer (`get-hints.py`), the
reduction stage (`clean_json`), and the module-inclusion policy
(`hinted-mods.py`).

Python strings are modelled as Lean `String`s; the helper functions below
reimplement the exact Python string primitives used by the source
(`startswith`, `endswith`, `in` (substring), `replace`, `split`, slicing),
operating on the underlying character lists so that every definition is
executable by the kernel.
-/

namespace Hints

/-- Python `s.startswith(p)`. -/
def sw (s p : String) : Bool := p.data.isPrefixOf s.data

/-- Python `s.endswith(p)`. -/
def ew (s p : String) : Bool := p.data.isSuffixOf s.data

/-- Python codepoint-lexicographic `<` on strings (used for `sorted`). -/
def lexLt : List Char → List Char → Bool
  | [], [] => false
  | [], _ :: _ => true
  | _ :: _, [] => false
  | a :: as, b :: bs => if a < b then true else if b < a then false else lexLt as bs

/-- Python `s < t` on strings. -/
def strLt (s t : String) : Prop := lexLt s.data t.data = true

instance : DecidableRel strLt := fun s t =>
  inferInstanceAs (Decidable (lexLt s.data t.data = true))

/-- First index at which `pat` occurs in a character list (Python `str.find`). -/
def findSubAux (pat : List Char) : List Char → Nat → Option Nat
  | [], i => if pat.isEmpty then some i else none
  | c :: cs, i => if pat.isPrefixOf (c :: cs) then some i else findSubAux pat cs (i + 1)

/-- Python `p.find(pat)` returning `none` for -1. -/
def findSub (s pat : String) : Option Nat := findSubAux pat.data s.data 0

/-- Python `pat in s` (substring containment). -/
def hasSub (s pat : String) : Bool := (findSub s pat).isSome

/-- One step of Python `str.replace`: `skip` is the number of pattern
characters still to be skipped after a match was emitted. -/
def replaceAux (pat rep : List Char) : List Char → Nat → List Char
  | [], _ => []
  | _ :: cs, k + 1 => replaceAux pat rep cs k
  | c :: cs, 0 =>
    if pat ≠ [] ∧ pat.isPrefixOf (c :: cs) then
      rep ++ replaceAux pat rep cs (pat.length - 1)
    else
      c :: replaceAux pat rep cs 0

/-- Python `s.replace(pat, rep)` (all non-overlapping occurrences, left to right). -/
def pyReplace (s pat rep : String) : String :=
  ⟨replaceAux pat.data rep.data s.data 0⟩

/-- Python `s.split(ch)` for a single-character separator. -/
def splitOnCh (ch : Char) : List Char → List (List Char)
  | [] => [[]]
  | c :: cs =>
    let rest := splitOnCh ch cs
    if c = ch then [] :: rest
    else
      match rest with
      | [] => [[c]]
      | r :: rs => (c :: r) :: rs

/-- Python `s.split(sep)` for a one-character `sep`, as strings. -/
def pySplit (s : String) (ch : Char) : List String :=
  (splitOnCh ch s.data).map String.mk

/-- Python `sep.join(parts)` for a one-character separator. -/
def pyJoin (ch : Char) : List String → String
  | [] => ""
  | [p] => p
  | p :: ps => p ++ String.mk [ch] ++ pyJoin ch ps

/-- Python slicing `s[:-n]` (for `0 < n ≤ len s`). -/
def dropRightStr (s : String) (n : Nat) : String := ⟨s.data.take (s.data.length - n)⟩

/-- Python slicing `s[:n]`. -/
def takeStr (s : String) (n : Nat) : String := ⟨s.data.take n⟩

/-!  POSIX path primitives (`os.path`), as used by `normalize_file`.
The trace descriptors use forward slashes (the capture shim normalizes
paths); we model the `posixpath` variants of `dirname` / `basename` /
`join` / `splitext`. -/

/-- Split a character list at its last `/`: `(head including the slash, tail)`. -/
def splitAtLastSlash (ds : List Char) : List Char × List Char :=
  let rs := ds.reverse
  ((rs.dropWhile (· ≠ '/')).reverse, (rs.takeWhile (· ≠ '/')).reverse)

/-- `posixpath.basename`. -/
def pBasename (t : String) : String := ⟨(splitAtLastSlash t.data).2⟩

/-- `posixpath.dirname`: the head with trailing slashes stripped, unless it
consists only of slashes. -/
def pDirname (t : String) : String :=
  let head := (splitAtLastSlash t.data).1
  if head.all (· = '/') then ⟨head⟩
  else ⟨(head.reverse.dropWhile (· = '/')).reverse⟩

/-- `posixpath.join` for two components. -/
def pJoinPath (a b : String) : String :=
  if sw b "/" then b
  else if a = "" ∨ ew a "/" then a ++ b
  else a ++ "/" ++ b

/-- `posixpath.splitext` on a basename (no slashes): the extension starts at
the last dot, unless every character before that dot is itself a dot. -/
def splitextB (datei : String) : String × String :=
  let ds := datei.data
  match ds.reverse.findIdx? (· = '.') with
  | none => (datei, "")
  | some k =>
    let i := ds.length - 1 - k
    if (ds.take i).all (· = '.') then (datei, "")
    else (⟨ds.take i⟩, ⟨ds.drop i⟩)

/-!  `get-hints.py` — the call-hierarchy analyzer's helpers. -/

/-- Packages whose members are always accepted (`get-hints.py` line 48). -/
def accept_always : List String := ["importlib_metadata", "pytest", "_pytest"]

/-- Modelled from the spec: Nuitka's `getSharedLibrarySuffix(preferred=True)`
is external to this repository; it returns the platform shared-library
suffix.  We fix the Linux value. -/
def sharedLibrarySuffix : String := ".so"

/-- Modelled from the spec: Nuitka's `hasFilenameExtension` is external; it
tests whether the filename carries the given extension. -/
def hasFilenameExtension (f suffix : String) : Bool := ew f suffix

/-- The extension of the descriptor's basename (`normalize_file` line 144). -/
def nf_ext (t : String) : String := (splitextB (pBasename t)).2

/-- Step 1 of `normalize_file` (lines 141-152): strip platform tags from
shared-library basenames and rebuild the path. -/
def nf_rebuilt (t : String) : String :=
  let folder := pDirname t
  let datei0 := pBasename t
  let ext := nf_ext t
  let datei :=
    if ext = ".pyd" ∨ ext = ".so" then
      let arr := pySplit datei0 '.'
      if 2 < arr.length then pyJoin '.' (arr.take (arr.length - 2))
      else pyJoin '.' (arr.take (arr.length - 1))
    else datei0
  pJoinPath folder datei

/-- Step 2's string normalization of `normalize_file` (line 155): path
separators become dots and the search-path placeholder is removed. -/
def nf_dotted (t : String) : String :=
  pyReplace (pyReplace (pyReplace (nf_rebuilt t) "\\" ".") "/" ".") "$PYTHONPATH." ""

/-- `normalize_file` (`get-hints.py` lines 140-167).  `Except.error` models
`sys.exit`; the source's quotation marks around `%s` in the diagnostic are
elided. -/
def normalize_file (t : String) : Except String String :=
  let ext := nf_ext t
  let t2 := nf_dotted t
  if ew t2 ".__init__.py" then .ok (dropRightStr t2 12)
  else if ew t2 ".py" then .ok (dropRightStr t2 3)
  else if ¬(ext = ".pyd" ∨ ext = ".so") then
    .error ("found unknown Python module type " ++ t2)
  else .ok t2

/-!  The event reader (`get-hints.py` lines 51-117). -/

/-- A parsed trace record (reader output layouts 1-3). -/
inductive Rec where
  | call (depth : Nat) (called : String) (implist : Option (List String))
  | result (depth : Nat) (modname : String) (srcfile : String)
  | exc (depth : Nat) (message : String)
deriving DecidableEq, Repr

/-- Outcome of one `reader` invocation.  `fatal` models the
`print` + `sys.exit` path (the diagnostic carries the line number and the
raw record content); `pyraise` models an uncontrolled Python exception
escaping the reader (e.g. an out-of-range `tt[3]` access or a failing
`int(tt[0])`). -/
inductive ReadOut where
  | eof
  | record (r : Rec)
  | fatal (line : Nat) (text : String)
  | pyraise (kind : String)
deriving DecidableEq, Repr

/-- Python `str.isalnum`, restricted to its ASCII behaviour (the trace's
depth fields are ASCII). -/
def isalnumStr (s : String) : Bool := s ≠ "" && s.data.all Char.isAlphanum

/-- Python `int(s)` for the depth field: succeeds exactly on all-digit
strings (signs, whitespace and non-ASCII digits never pass `isalnum`). -/
def parseNatStr (s : String) : Option Nat :=
  if s ≠ "" ∧ s.data.all Char.isDigit then
    some (s.data.foldl (fun n c => 10 * n + (c.toNat - 48)) 0)
  else none

/-- Python `s.strip()` restricted to spaces. -/
def trimSpaces (s : String) : String :=
  ⟨((s.data.dropWhile (· = ' ')).reverse.dropWhile (· = ' ')).reverse⟩

/-- Modelled from the spec: `json.loads` (Python standard library, external
to this repository) applied to the converted name-list field, which by the
spec is a flat array of double-quoted strings. -/
def jsonStrList (t : String) : Option (List String) :=
  if sw t "[" ∧ ew t "]" then
    let inner := trimSpaces (dropRightStr ⟨t.data.drop 1⟩ 1)
    if inner = "" then some []
    else
      let parts := (pySplit inner ',').map trimSpaces
      if parts.all (fun p => 2 ≤ p.data.length && sw p "\"" && ew p "\"") then
        some (parts.map (fun p => dropRightStr ⟨p.data.drop 1⟩ 1))
      else none
  else none

/-- The name-list conversion of `reader` (lines 101-109): tuple brackets
become array brackets and single quotes (codepoint 39) become double
quotes, then the result is parsed. -/
def tupleToList (implist : String) : Option (List String) :=
  let t := pyReplace (pyReplace (pyReplace implist "(" "[") ",)" "]") ")" "]"
  jsonStrList ⟨t.data.map (fun c => if c.toNat = 39 then '"' else c)⟩

/-- Removal of a trailing line-break character (`reader` lines 71-72). -/
def stripNl (raw : String) : String :=
  if ew raw "\n" then dropRightStr raw 1 else raw

/-- `reader` (`get-hints.py` lines 51-117) applied to one raw line;
`raw = ""` is Python's `readline` end-of-file result. -/
def reader (line_number : Nat) (raw : String) : ReadOut :=
  if raw = "" then .eof
  else
    let text := stripNl raw
    let tt := pySplit text ';'
    if ¬(tt.length = 3 ∨ tt.length = 4)
        ∨ ¬(isalnumStr (tt.getD 0 "") = true)
        ∨ ¬(tt.getD 1 "" = "CALL" ∨ tt.getD 1 "" = "RESULT" ∨ tt.getD 1 "" = "EXCEPTION") then
      .fatal line_number text
    else
      match parseNatStr (tt.getD 0 "") with
      | none => .pyraise "ValueError"
      | some level =>
        match tt with
        | [_, t1, t2] =>
          if t1 = "RESULT" then .pyraise "IndexError"
          else if t1 = "EXCEPTION" then .record (.exc level t2)
          else .pyraise "IndexError"
        | [_, t1, t2, t3] =>
          if t1 = "RESULT" then .record (.result level t2 t3)
          else if t1 = "EXCEPTION" then .record (.exc level t2)
          else if t3 = "None" then .record (.call level t2 none)
          else
            match tupleToList t3 with
            | none => .pyraise "JSONDecodeError"
            | some l => .record (.call level t2 (some l))
        | _ => .fatal line_number text

/-- The per-line predicate of the log-consolidation step (`get-hints.py`
lines 552-554): a line is copied into the final logfile only if it contains
one of the three record kinds as a substring. -/
def consolidateLine (line : String) : Bool :=
  hasSub line "CALL" || hasSub line "RESULT" || hasSub line "EXCEPTION"

/-- The log-consolidation filter over the collected fragment lines. -/
def consolidate (ls : List String) : List String := ls.filter consolidateLine

/-!  The call-hierarchy analyzer (`get-hints.py` lines 120-286), over the
stream of parsed records.  The source's `while "CALL" in text` tests
membership of the string `CALL` in the record list, which coincides with
the record kind being CALL whenever no data field is the literal string
`CALL`; we model the record-kind test. -/

/-- Python truthiness of the CALL name-list (`not implist` is true both for
`None` and for an empty list). -/
def emptyImplist : Option (List String) → Bool
  | none => true
  | some [] => true
  | some (_ :: _) => false

/-- Analyzer outcome: `ok` carries the unconsumed stream and the
`import_calls` / `import_files` accumulators; `fatal` models `sys.exit`
(diagnostic details such as the current line number are elided); `noFuel`
is the artificial out-of-fuel marker of the embedding. -/
inductive AnaOut where
  | ok (rest : List Rec) (calls : List (String × String)) (files : List String)
  | fatal (msg : String)
  | noFuel
deriving DecidableEq, Repr

/-- Handling of the record that closes the current call
(`get-hints.py` lines 199-286).  Lines 202-205 and 234-235 only drive a
printed warning when the closing record's depth differs from the call's
level; they have no effect on the recorded output, so the computed
`matching` flag is not carried here. -/
def closing (_level : Nat) (CALLED : String) (implist : Option (List String)) (text : Rec)
    (rest : List Rec) (calls : List (String × String)) (files : List String) : AnaOut :=
  match text with
  | .exc _ _ => .ok rest calls files
  | .call _ _ _ => .fatal "expected RESULT"
  | .result _ RESULT res_file =>
    if RESULT = "__main__" then .ok rest calls files
    else if res_file = "built-in" then .ok rest calls files
    else
      let res_file1 := if ew res_file ".dll" then RESULT ++ ".py" else res_file
      let res_file2 :=
        if sw RESULT "win32com" then "$PYTHONPATH\\win32com\\__init__.py" else res_file1
      match normalize_file res_file2 with
      | .error e => .fatal e
      | .ok normalized =>
        let files := files ++ [normalized]
        let calls := calls ++ [(RESULT, normalized)]
        if hasFilenameExtension res_file2 sharedLibrarySuffix
            || accept_always.contains normalized then
          .ok rest (calls ++ [(RESULT ++ ".*", normalized)]) files
        else if CALLED = "" then
          if emptyImplist implist then .ok rest calls files
          else
            .ok rest
              (calls ++ (implist.getD []).map (fun i => (RESULT ++ "." ++ i, normalized))) files
        else if sw CALLED RESULT || sw RESULT CALLED || ew RESULT CALLED then
          if emptyImplist implist then
            if CALLED ≠ RESULT then .ok rest (calls ++ [(CALLED, normalized)]) files
            else .ok rest calls files
          else
            let cmod :=
              if CALLED = RESULT then CALLED
              else if ew RESULT CALLED then RESULT
              else if sw RESULT CALLED then RESULT
              else CALLED
            .ok rest
              (calls ++ (implist.getD []).map (fun i => (cmod ++ "." ++ i, normalized))) files
        else
          let cmod := RESULT ++ "." ++ CALLED
          let calls := calls ++ [(cmod, normalized)]
          if emptyImplist implist then .ok rest calls files
          else
            .ok rest
              (calls ++ (implist.getD []).map (fun i => (cmod ++ "." ++ i, normalized))) files

/-- The recursive body of `call_analyzer`.  `pending = none` means the next
record still has to be read (the `text = reader(f)` calls); `pending = some
text` means `text` has been read and the CALL-recursion loop is being
evaluated.  The fuel only bounds the recursion depth of the embedding; one
unit is consumed per read or per loop iteration. -/
def anaF (fuel : Nat) (level : Nat) (CALLED : String) (implist : Option (List String))
    (pending : Option Rec) (stream : List Rec) (calls : List (String × String))
    (files : List String) : AnaOut :=
  match fuel with
  | 0 => .noFuel
  | fuel + 1 =>
    match pending with
    | none =>
      match stream with
      | [] => .fatal "unexpected EOF"
      | t :: rest => anaF fuel level CALLED implist (some t) rest calls files
    | some text =>
      match text with
      | .call l2 c2 il2 =>
        match anaF fuel l2 c2 il2 none stream calls files with
        | .ok stream2 calls2 files2 =>
          match stream2 with
          | [] => .ok [] calls2 files2
          | t2 :: rest2 => anaF fuel level CALLED implist (some t2) rest2 calls2 files2
        | other => other
      | _ => closing level CALLED implist text stream calls files

/-- `call_analyzer` (`get-hints.py` lines 120-286): analyze one CALL record
(given by `level`, `CALLED`, `implist`) against the remaining record
stream. -/
def call_analyzer (fuel : Nat) (level : Nat) (CALLED : String)
    (implist : Option (List String)) (stream : List Rec)
    (calls : List (String × String)) (files : List String) : AnaOut :=
  anaF fuel level CALLED implist none stream calls files

/-!  The reduction stage `clean_json` (`get-hints.py` lines 289-315). -/

/-- The first pass of `clean_json`: scan the (sorted) list once; after an
entry ending in `.*` is kept, `last` holds that entry without its asterisk
(`last_item = x[:-1]`), and every subsequent entry starting with `last` is
skipped. -/
def pass1 (last : Option String) : List String → List String
  | [] => []
  | x :: xs =>
    let skip := match last with
      | some p => sw x p
      | none => false
    if skip then pass1 last xs
    else x :: pass1 (if ew x ".*" then some (dropRightStr x 1) else last) xs

/-- `clean_json` (`get-hints.py` lines 289-315): the wildcard pass followed
by removal of every surviving entry whose `.*` form also survived.  The
observability `print` of the removed count carries no data flow and is
elided. -/
def clean_json (netto_calls : List String) : List String :=
  let list_out := pass1 none netto_calls
  let temp_list := list_out.filter (fun x => list_out.contains (x ++ ".*"))
  temp_list.foldl (fun l x => l.erase x) list_out

/-!  The module-inclusion policy (`hinted-mods.py`). -/

/-- `remove_suffix` (`hinted-mods.py` lines 45-50). -/
def remove_suffix (mod_dir mod_name : String) : String :=
  match findSub mod_dir mod_name with
  | none => mod_dir
  | some p => takeStr mod_dir (p + mod_name.length)

/-- `check_dependents` (`hinted-mods.py` lines 53-69). -/
def check_dependents (full_name : String) (import_list : List String) : Bool :=
  let search_name := full_name ++ "."
  import_list.any (fun item => sw item search_name)

/-- Modelled from the spec: Nuitka `ModuleName.splitPackageName` is external
to this repository; per `get_checklist`'s own documentation it peels the
leading package component off a dotted name (so iterating it over `a.b.c`
yields `a`, `b`, `c`). The loop of `get_checklist` is unrolled over the
component list. -/
def checklistLoop (m0 : String) : List String → List String
  | [] => []
  | c :: cs =>
    let m1 := if m0 = "" then c else m0 ++ "." ++ c
    (m1 ++ ".*") :: checklistLoop m1 cs

/-- `get_checklist` (`hinted-mods.py` lines 72-97). -/
def get_checklist (full_name : String) : List String :=
  if full_name = "" then []
  else full_name :: checklistLoop "" (pySplit full_name '.')

/-- Modelled from the spec: Nuitka `ModuleName.getTopLevelPackageName`
(external) — the first dotted component. -/
def getTopLevelPackageName (full_name : String) : String :=
  (pySplit full_name '.').headD ""

/-- Modelled from the spec: Nuitka `ModuleName.getPackageName` (external) —
the parent package (all but the last component), or `none` for a top-level
name. -/
def getPackageName (full_name : String) : Option String :=
  let parts := pySplit full_name '.'
  if parts.length ≤ 1 then none
  else some (pyJoin '.' (parts.take (parts.length - 1)))

/-- A delegate Nuitka plugin, reduced to the capabilities `hinted-mods.py`
uses: its name, its `onModuleEncounter` answer for a module name
(`none` = abstain), and its `getImportsByFullname` (already projected to
the first tuple components; `none` models the `TypeError` of an
incompatible version). -/
structure Plugin where
  plugin_name : String
  onEnc : String → Option (Bool × String)
  getImports : String → String → Option (List String)

/-- The decision-relevant mutable state of `HintedModsPlugin`
(the message-count bookkeeping only caps log output and is elided). -/
structure PolicyState where
  implicit_imports : List String
  ignored_modules : List String
  implicit_plugin : Option Plugin

/-- `OrderedSet.add`: append if absent. -/
def addOnce (l : List String) (x : String) : List String :=
  if l.contains x then l else l ++ [x]

/-- Result of one policy query.  `keep r` / `drop r` are the
`(True, r)` / `(False, r)` returns, `abstain` is `return None`, and
`fatal` models `sys.exit` (the source's quotation marks inside messages are
elided). -/
inductive Decision where
  | keep (reason : String)
  | drop (reason : String)
  | abstain
  | fatal (msg : String)
deriving DecidableEq, Repr

/-- The delegate-plugin loop of `onModuleEncounter` (`hinted-mods.py`
lines 352-375): consult every other active plugin in order; the first
non-`None` answer wins and is cached.  The returned `Nat` counts delegate
consultations. -/
def pluginLoop (self_name full_name : String) (st : PolicyState) :
    List Plugin → Nat → Option (Decision × PolicyState) × Nat
  | [], n => (none, n)
  | p :: ps, n =>
    if p.plugin_name = self_name then pluginLoop self_name full_name st ps n
    else
      match p.onEnc full_name with
      | none => pluginLoop self_name full_name st ps (n + 1)
      | some (true, _) =>
        (some (.keep "module is imported",
               { st with implicit_imports := addOnce st.implicit_imports full_name }), n + 1)
      | some (false, _) =>
        (some (.drop ("dropped by plugin " ++ p.plugin_name),
               { st with ignored_modules := addOnce st.ignored_modules full_name }), n + 1)

/-- `HintedModsPlugin.onModuleEncounter` (`hinted-mods.py` lines 307-421).
`import_calls` / `import_files` are the accept-list artifact's two lists
(with `accept_test` hard-coded to `False`, line 149); `plugins` is
`getActivePlugins()`.  Returns the decision, the updated state, and the
number of delegate-plugin consultations performed. -/
def onModuleEncounter (self_name : String) (plugins : List Plugin)
    (import_calls import_files : List String) (st : PolicyState)
    (module_filename module_name : String) : Decision × PolicyState × Nat :=
  let full_name := module_name
  let top := getTopLevelPackageName full_name
  let package := getPackageName full_name
  let package_dir := remove_suffix module_filename top
  if top = "pkg_resources" then (.abstain, st, 0)
  else if st.ignored_modules.contains full_name || st.ignored_modules.contains top then
    (.drop "module is not used", st, 0)
  else if top = "pytest" ∨ top = "_pytest" ∨ top = "unittest" then
    (.drop "suppress testing components",
     { st with ignored_modules := addOnce st.ignored_modules full_name }, 0)
  else if st.implicit_imports.contains full_name then
    (.keep "module is an implicit import", st, 0)
  else
    match pluginLoop self_name full_name st plugins 0 with
    | (some (d, st1), n) => (d, st1, n)
    | (none, n) =>
      if full_name = "cv2" then (.keep "needed by OpenCV", st, n)
      else if sw top "pywin" then (.keep "needed by pywin32", st, n)
      else if import_calls.any (fun m => (get_checklist full_name).contains m) then
        (.keep "module is hinted to", st, n)
      else if check_dependents full_name import_files then
        (.keep "parent of recursed-to module", st, n)
      else
        match (match st.implicit_plugin with
               | some p => some p
               | none => plugins.find? (fun p => p.plugin_name = "implicit-imports")) with
        | none => (.fatal "could not find implicit-imports plugin", st, n)
        | some ipl =>
          let st2 := { st with implicit_plugin := some ipl }
          match package with
          | some pkg =>
            match ipl.getImports pkg package_dir with
            | none =>
              (.fatal "versions of hinted-mods.py and ImplicitImports.py are incompatible",
               st2, n)
            | some import_list0 =>
              if import_list0.contains full_name then
                (.keep "module is an implicit import",
                 { st2 with implicit_imports := import_list0.foldl addOnce st2.implicit_imports },
                 n)
              else
                (.drop "module is not used",
                 { st2 with ignored_modules := addOnce st2.ignored_modules full_name }, n)
          | none =>
            (.drop "module is not used",
             { st2 with ignored_modules := addOnce st2.ignored_modules full_name }, n)

/-- No-violation invariant of the wildcard pass: once an entry ending in
`.*` has been kept, no later surviving entry starts with that entry's
prefix (the entry minus its asterisk). -/
def NoViol (l : List String) : Prop :=
  l.Pairwise (fun a b => ew a ".*" = true → sw b (dropRightStr a 1) = false)

/-- The fresh policy state (`HintedModsPlugin.__init__`). -/
def st0 : PolicyState := ⟨[], [], none⟩

/-- A concrete implicit-imports delegate used to witness the policy
theorems: abstains on every module and knows no implicit imports. -/
def ip_plugin : Plugin :=
  { plugin_name := "implicit-imports"
    onEnc := fun _ => none
    getImports := fun _ _ => some [] }

/-!  ## Theorems -/

/-- A `.__init__.py` suffix is in particular a `.py` suffix. -/
theorem ew_of_ew_init (s : String) (h : ew s ".__init__.py" = true) : ew s ".py" = true := by
  have h1 : (".__init__.py".data) <:+ s.data := by simpa [ew] using h
  have h2 : (".py".data) <:+ (".__init__.py".data) := ⟨".__init__".data, by decide⟩
  simpa [ew] using List.isSuffixOf_iff_suffix.mpr (h2.trans h1)

/-- C3 (confirmed): `get_checklist` applied to `a.b.c` returns exactly the
exact name followed by one wildcard per ancestor-prefix from least to most
specific, including the wildcard of the full name, in order and without
duplicates. -/
theorem C3_checklist_generation :
    get_checklist "a.b.c" = ["a.b.c", "a.*", "a.b.*", "a.b.c.*"]
      ∧ (["a.b.c", "a.*", "a.b.*", "a.b.c.*"] : List String).Nodup :=
  ⟨rfl, by decide⟩

/-- C10 counterexample: the descriptor `dir/py` neither ends in `.py` nor
has extension `.pyd`/`.so`, yet `normalize_file` succeeds on it (returning
`dir`) instead of aborting, refuting the claimed totality
characterization. -/
theorem C10_counterexample :
    normalize_file "dir/py" = .ok "dir"
      ∧ ew "dir/py" ".py" = false
      ∧ nf_ext "dir/py" ≠ ".pyd" ∧ nf_ext "dir/py" ≠ ".so" :=
  ⟨rfl, by decide, by decide, by decide⟩

/-- C10 (corrected): `normalize_file` succeeds exactly on descriptors whose
basename extension is `.pyd`/`.so` or whose dot-normalized form (separators
turned into dots, search-path placeholder removed, shared-library tags
stripped) ends in `.py`; every other descriptor aborts fatally with the
`found unknown Python module type` diagnostic. -/
theorem C10_normalize_totality (t : String) :
    ((∃ s, normalize_file t = .ok s) ↔
      (nf_ext t = ".pyd" ∨ nf_ext t = ".so" ∨ ew (nf_dotted t) ".py" = true))
    ∧ (∀ e, normalize_file t = .error e →
        e = "found unknown Python module type " ++ nf_dotted t) := by
  have key : normalize_file t =
      (if ew (nf_dotted t) ".__init__.py" then Except.ok (dropRightStr (nf_dotted t) 12)
       else if ew (nf_dotted t) ".py" then .ok (dropRightStr (nf_dotted t) 3)
       else if ¬(nf_ext t = ".pyd" ∨ nf_ext t = ".so") then
         .error ("found unknown Python module type " ++ nf_dotted t)
       else .ok (nf_dotted t)) := rfl
  by_cases h1 : ew (nf_dotted t) ".__init__.py" = true
  · have h2 := ew_of_ew_init _ h1
    rw [key]; simp [h1, h2]
  · by_cases h2 : ew (nf_dotted t) ".py" = true
    · rw [key]; simp [h1, h2]
    · by_cases h3 : nf_ext t = ".pyd" ∨ nf_ext t = ".so"
      · rcases h3 with h3 | h3 <;> rw [key] <;> simp [h1, h2, h3]
      · rw [key]
        rw [if_neg h1, if_neg h2, if_pos h3]
        constructor
        · constructor
          · rintro ⟨s, hs⟩
            exact absurd hs (by simp)
          · intro h
            rcases h with h | h | h
            · exact absurd (Or.inl h) h3
            · exact absurd (Or.inr h) h3
            · exact absurd h h2
        · intro e he
          cases he
          rfl

/-- C1 counterexample: with `CALLED = "pkg.sub"`, `RESULT = "pkg"` and
name-list `["a","b"]`, the analyzer emits `pkg`, `pkg.sub.a`, `pkg.sub.b` —
not the claimed `pkg`, `pkg.a`, `pkg.b`: in rule 4.3c the called name wins
as the true name when the resolved name is merely its prefix. -/
theorem C1_counterexample :
    call_analyzer 9 1 "pkg.sub" (some ["a", "b"])
        [(.result 1 "pkg" "$PYTHONPATH/pkg/__init__.py")] [] []
      = .ok [] [("pkg", "pkg"), ("pkg.sub.a", "pkg"), ("pkg.sub.b", "pkg")] ["pkg"]
    ∧ ([("pkg", "pkg"), ("pkg.sub.a", "pkg"), ("pkg.sub.b", "pkg")] : List (String × String))
      ≠ [("pkg", "pkg"), ("pkg.a", "pkg"), ("pkg.b", "pkg")] :=
  ⟨rfl, by decide⟩

/-- C1 (corrected): when the analyzer closes a call with
`CALLED = "pkg.sub"`, `RESULT = "pkg"` and name-list `["a","b"]`, the call
list receives exactly `pkg`, `pkg.sub.a`, `pkg.sub.b`: since the resolved
name is only a prefix of the called name, the called name wins as the true
name and the list items are qualified under it. -/
theorem C1_name_reconciliation (fuel d d2 : Nat) (rest : List Rec)
    (calls : List (String × String)) (files : List String) :
    call_analyzer (fuel + 2) d "pkg.sub" (some ["a", "b"])
        ((.result d2 "pkg" "$PYTHONPATH/pkg/__init__.py") :: rest) calls files
      = .ok rest (calls ++ [("pkg", "pkg"), ("pkg.sub.a", "pkg"), ("pkg.sub.b", "pkg")])
          (files ++ ["pkg"]) := by
  have h : call_analyzer (fuel + 2) d "pkg.sub" (some ["a", "b"])
        ((.result d2 "pkg" "$PYTHONPATH/pkg/__init__.py") :: rest) calls files
      = .ok rest ((calls ++ [("pkg", "pkg")]) ++ [("pkg.sub.a", "pkg"), ("pkg.sub.b", "pkg")])
          (files ++ ["pkg"]) := rfl
  simpa [List.append_assoc] using h

/-- C2 counterexample: a closing RESULT whose depth (2) differs from the
open CALL's depth (1) does not abort the analyzer — the call's output is
recorded anyway (the mismatch only produces a printed warning). -/
theorem C2_counterexample :
    call_analyzer 9 1 "mod" none [(.result 2 "mod" "$PYTHONPATH/mod.py")] [] []
      = .ok [] [("mod", "mod")] ["mod"] := by decide

/-- C2 (corrected): end-of-stream immediately after an open CALL is fatal;
but a depth mismatch on the closing RESULT only produces a diagnostic while
the call's output is still recorded, and end-of-stream reached after nested
CALLs have been consumed ends the analysis silently without output for the
open call. -/
theorem C2_failure_semantics :
    (∀ (fuel level : Nat) (CALLED : String) (implist : Option (List String))
        (calls : List (String × String)) (files : List String),
      call_analyzer (fuel + 1) level CALLED implist [] calls files = .fatal "unexpected EOF")
    ∧ (∀ (fuel level d : Nat) (rest : List Rec) (calls : List (String × String))
        (files : List String), d ≠ level →
      call_analyzer (fuel + 2) level "mod" none
          ((.result d "mod" "$PYTHONPATH/mod.py") :: rest) calls files
        = .ok rest (calls ++ [("mod", "mod")]) (files ++ ["mod"]))
    ∧ call_analyzer 9 1 "a" none [(.call 2 "b" none), (.result 2 "m" "built-in")] [] []
        = .ok [] [] [] :=
  ⟨fun _ _ _ _ _ _ => rfl, fun _ _ _ _ _ _ _ => rfl, by decide⟩

/-- Witness for C2: the depth-mismatch clause applied at depth 2 against an
open call at depth 1. -/
theorem C2_failure_semantics_witness :
    call_analyzer 2 1 "mod" none [(.result 2 "mod" "$PYTHONPATH/mod.py")] [] []
      = .ok [] [("mod", "mod")] ["mod"] := by
  have h := C2_failure_semantics.2.1 0 1 2 [] [] [] (by decide)
  simpa using h

/-- C8 (confirmed): a call closed by a RESULT record whose source
descriptor is the literal `built-in` contributes no entry to the call list
and no entry to the file list, whatever the depths, the called name and the
name-list. -/
theorem C8_builtin_suppression (fuel level d2 : Nat) (CALLED m : String)
    (implist : Option (List String)) (rest : List Rec)
    (calls : List (String × String)) (files : List String) :
    call_analyzer (fuel + 2) level CALLED implist ((.result d2 m "built-in") :: rest) calls files
      = .ok rest calls files := by
  have h2 : call_analyzer (fuel + 2) level CALLED implist
        ((.result d2 m "built-in") :: rest) calls files
      = closing level CALLED implist (.result d2 m "built-in") rest calls files := rfl
  rw [h2]
  by_cases hm : m = "__main__" <;> simp [closing, hm]

/-- C4 counterexample: the line `1;RESULT;x` passes the reader's validation
(3 fields, alnum depth, known kind) although a RESULT record needs 4
fields; the reader then crashes with an uncontrolled out-of-range access
instead of the controlled fatal diagnostic. -/
theorem C4_counterexample :
    reader 7 "1;RESULT;x\n" = .pyraise "IndexError"
      ∧ ReadOut.pyraise "IndexError" ≠ ReadOut.fatal 7 "1;RESULT;x" := by decide

/-- C4 (corrected): the reader's validation checks only the total field
count (3 or 4), that the first field is alphanumeric and that the kind is
known, failing fatally with the line number and the raw content; but the
per-kind field count is not checked — a 3-field RESULT or CALL line crashes
with an uncontrolled index error, a 4-field EXCEPTION line is accepted, and
an alphanumeric non-numeric depth field crashes with an uncontrolled parse
error. -/
theorem C4_reader_validation :
    (∀ (n : Nat) (raw : String), raw ≠ "" →
      (¬((pySplit (stripNl raw) ';').length = 3 ∨ (pySplit (stripNl raw) ';').length = 4)
        ∨ ¬(isalnumStr ((pySplit (stripNl raw) ';').getD 0 "") = true)
        ∨ ¬((pySplit (stripNl raw) ';').getD 1 "" = "CALL"
            ∨ (pySplit (stripNl raw) ';').getD 1 "" = "RESULT"
            ∨ (pySplit (stripNl raw) ';').getD 1 "" = "EXCEPTION")) →
      reader n raw = .fatal n (stripNl raw))
    ∧ (∀ n, reader n "7;RESULT;x\n" = .pyraise "IndexError")
    ∧ (∀ n, reader n "1;CALL;m\n" = .pyraise "IndexError")
    ∧ (∀ n, reader n "1;EXCEPTION;boom;extra\n" = .record (.exc 1 "boom"))
    ∧ (∀ n, reader n "1x;CALL;m;None\n" = .pyraise "ValueError") := by
  refine ⟨?_, fun _ => rfl, fun _ => rfl, fun _ => rfl, fun _ => rfl⟩
  intro n raw h hc
  simp only [reader, if_neg h]
  exact if_pos hc

/-- Witness for C4: the validation clause applied to a one-field line. -/
theorem C4_reader_validation_witness :
    reader 3 "garbage\n" = .fatal 3 "garbage" := by
  have h := C4_reader_validation.1 3 "garbage\n" (by decide) (by decide)
  have hs : stripNl "garbage\n" = "garbage" := by decide
  rwa [hs] at h

/-- C5 counterexample: the reader treats a blank line as a malformed record
and fails fatally — it neither skips it nor reports end-of-stream. -/
theorem C5_counterexample :
    reader 3 "\n" = .fatal 3 "" ∧ ReadOut.fatal 3 "" ≠ ReadOut.eof := by decide

/-- C5 (corrected): a blank line reaching the reader is a fatal malformed
record; blank lines are instead removed before parsing by the log
consolidation step, which copies only lines containing one of the three
record kinds. -/
theorem C5_blank_lines :
    (∀ n, reader n "\n" = .fatal n "")
    ∧ (∀ ls : List String, "" ∉ consolidate ls ∧ "\n" ∉ consolidate ls) := by
  refine ⟨fun _ => rfl, fun ls => ⟨fun h => ?_, fun h => ?_⟩⟩
  · exact absurd (List.mem_filter.mp h).2 (by decide)
  · exact absurd (List.mem_filter.mp h).2 (by decide)

/-- An element is a member of the list `addOnce` produced from it. -/
theorem mem_addOnce (l : List String) (x : String) : x ∈ addOnce l x := by
  unfold addOnce
  split
  · next hc => exact List.elem_iff.mp hc
  · exact List.mem_append_right _ (List.mem_singleton.mpr rfl)

/-- The delegate loop never answers with an abstention or a fatal error. -/
theorem pluginLoop_decision (self fn : String) (st : PolicyState) :
    ∀ (ps : List Plugin) (n : Nat) (d : Decision) (st1 : PolicyState) (m : Nat),
      pluginLoop self fn st ps n = (some (d, st1), m) →
      (∀ msg, d ≠ .fatal msg) ∧ d ≠ .abstain := by
  intro ps
  induction ps with
  | nil => intro n d st1 m h; simp [pluginLoop] at h
  | cons p ps ih =>
    intro n d st1 m h
    simp only [pluginLoop] at h
    split at h
    · exact ih _ _ _ _ h
    · split at h
      · exact ih _ _ _ _ h
      · simp only [Prod.mk.injEq, Option.some.injEq] at h
        obtain ⟨⟨hd, -⟩, -⟩ := h
        subst hd
        exact ⟨fun _ => by simp, by simp⟩
      · simp only [Prod.mk.injEq, Option.some.injEq] at h
        obtain ⟨⟨hd, -⟩, -⟩ := h
        subst hd
        exact ⟨fun _ => by simp, by simp⟩

/-- If the delegate loop answers DROP, the module went into the
ignored-modules cache of the returned state. -/
theorem pluginLoop_drop_mem (self fn : String) (st : PolicyState) :
    ∀ (ps : List Plugin) (n : Nat) (r : String) (st1 : PolicyState) (m : Nat),
      pluginLoop self fn st ps n = (some (.drop r, st1), m) →
      fn ∈ st1.ignored_modules := by
  intro ps
  induction ps with
  | nil => intro n r st1 m h; simp [pluginLoop] at h
  | cons p ps ih =>
    intro n r st1 m h
    simp only [pluginLoop] at h
    split at h
    · exact ih _ _ _ _ h
    · split at h
      · exact ih _ _ _ _ h
      · simp at h
      · simp only [Prod.mk.injEq, Option.some.injEq, Decision.drop.injEq] at h
        obtain ⟨⟨-, hst⟩, -⟩ := h
        rw [← hst]
        exact mem_addOnce _ _

/-- C7 counterexample: a policy query for an unresolvable module (`a.b`,
empty caches, empty accept-list) in an environment without an
implicit-imports delegate plugin aborts fatally instead of answering
DROP. -/
theorem C7_counterexample :
    (onModuleEncounter "hinted-mods" [] [] [] st0 "f" "a.b").1
      = .fatal "could not find implicit-imports plugin" := rfl

/-- C7 (corrected): provided the implicit-imports delegate plugin is
present among the active plugins, answers type-compatibly, and is not yet
cached, every policy query returns a definite KEEP or DROP — except modules
whose top-level package is `pkg_resources`, which get an explicit
abstention; if the delegate is missing or incompatible, the query instead
aborts the compilation fatally. -/
theorem C7_policy_definite (self : String) (plugins : List Plugin)
    (calls files : List String) (st : PolicyState) (mf fn : String)
    (hst : st.implicit_plugin = none)
    (hex : ∃ p ∈ plugins, p.plugin_name = "implicit-imports")
    (htot : ∀ p ∈ plugins, p.plugin_name = "implicit-imports" →
        ∀ a b, (p.getImports a b).isSome = true) :
    (∀ m, (onModuleEncounter self plugins calls files st mf fn).1 ≠ .fatal m)
    ∧ ((onModuleEncounter self plugins calls files st mf fn).1 = .abstain →
        getTopLevelPackageName fn = "pkg_resources") := by
  rcases heq : onModuleEncounter self plugins calls files st mf fn with ⟨d, st1, n⟩
  suffices hs : (∀ m, d ≠ .fatal m) ∧
      (d = .abstain → getTopLevelPackageName fn = "pkg_resources") by simpa using hs
  simp only [onModuleEncounter, hst] at heq
  split at heq
  · next htop =>
    simp only [Prod.mk.injEq] at heq
    obtain ⟨hd, -, -⟩ := heq
    subst hd
    exact ⟨fun m => by simp, fun _ => htop⟩
  · next htop =>
    split at heq
    · simp only [Prod.mk.injEq] at heq
      obtain ⟨hd, -, -⟩ := heq
      subst hd
      exact ⟨fun m => by simp, fun h => by cases h⟩
    · split at heq
      · simp only [Prod.mk.injEq] at heq
        obtain ⟨hd, -, -⟩ := heq
        subst hd
        exact ⟨fun m => by simp, fun h => by cases h⟩
      · split at heq
        · simp only [Prod.mk.injEq] at heq
          obtain ⟨hd, -, -⟩ := heq
          subst hd
          exact ⟨fun m => by simp, fun h => by cases h⟩
        · split at heq
          · next d2 st2 m2 hloop =>
            simp only [Prod.mk.injEq] at heq
            obtain ⟨hd, -, -⟩ := heq
            subst hd
            have hd2 := pluginLoop_decision self fn st plugins 0 _ _ _ hloop
            exact ⟨hd2.1, fun h => absurd h hd2.2⟩
          · next m2 hloop =>
            split at heq
            · simp only [Prod.mk.injEq] at heq
              obtain ⟨hd, -, -⟩ := heq
              subst hd
              exact ⟨fun m => by simp, fun h => by cases h⟩
            · split at heq
              · simp only [Prod.mk.injEq] at heq
                obtain ⟨hd, -, -⟩ := heq
                subst hd
                exact ⟨fun m => by simp, fun h => by cases h⟩
              · split at heq
                · simp only [Prod.mk.injEq] at heq
                  obtain ⟨hd, -, -⟩ := heq
                  subst hd
                  exact ⟨fun m => by simp, fun h => by cases h⟩
                · split at heq
                  · simp only [Prod.mk.injEq] at heq
                    obtain ⟨hd, -, -⟩ := heq
                    subst hd
                    exact ⟨fun m => by simp, fun h => by cases h⟩
                  · split at heq
                    · next hfind =>
                      exfalso
                      rcases hex with ⟨p, hp, hname⟩
                      have hsome : (plugins.find?
                          (fun p => p.plugin_name = "implicit-imports")).isSome := by
                        apply List.find?_isSome.mpr
                        exact ⟨p, hp, by simp [hname]⟩
                      rw [hfind] at hsome
                      cases hsome
                    · next ipl hfind =>
                      have hmem := List.mem_of_find?_eq_some hfind
                      have hnm : ipl.plugin_name = "implicit-imports" := by
                        simpa using List.find?_some hfind
                      split at heq
                      · next pkg hpkg =>
                        split at heq
                        · next hgi =>
                          exfalso
                          have hsome := htot ipl hmem hnm pkg
                              (remove_suffix mf (getTopLevelPackageName fn))
                          rw [hgi] at hsome
                          cases hsome
                        · split at heq
                          · simp only [Prod.mk.injEq] at heq
                            obtain ⟨hd, -, -⟩ := heq
                            subst hd
                            exact ⟨fun m => by simp, fun h => by cases h⟩
                          · simp only [Prod.mk.injEq] at heq
                            obtain ⟨hd, -, -⟩ := heq
                            subst hd
                            exact ⟨fun m => by simp, fun h => by cases h⟩
                      · simp only [Prod.mk.injEq] at heq
                        obtain ⟨hd, -, -⟩ := heq
                        subst hd
                        exact ⟨fun m => by simp, fun h => by cases h⟩


/-- Witness for C7: a query against a one-plugin environment containing a
total implicit-imports delegate resolves without a fatal error and without
abstaining. -/
theorem C7_policy_definite_witness :
    (∀ m, (onModuleEncounter "hinted-mods" [ip_plugin] [] [] st0 "f" "a.b").1 ≠ .fatal m)
    ∧ ((onModuleEncounter "hinted-mods" [ip_plugin] [] [] st0 "f" "a.b").1 = .abstain →
        getTopLevelPackageName "a.b" = "pkg_resources") :=
  C7_policy_definite "hinted-mods" [ip_plugin] [] [] st0 "f" "a.b" rfl
    ⟨ip_plugin, by simp, rfl⟩
    (fun p hp _ => by simp at hp; cases hp; intro a b; rfl)

/-- C9 (confirmed): once a policy query has answered DROP for a module
name, a later query for the same name on the same policy instance answers
DROP from the ignored-cache, leaving the state unchanged and consulting
zero delegate plugins. -/
theorem C9_policy_short_circuit (self : String) (plugins : List Plugin)
    (calls files : List String) (st : PolicyState) (mf fn r : String)
    (st1 : PolicyState) (n : Nat)
    (h : onModuleEncounter self plugins calls files st mf fn = (.drop r, st1, n)) :
    onModuleEncounter self plugins calls files st1 mf fn
      = (.drop "module is not used", st1, 0) := by
  have hmem : getTopLevelPackageName fn ≠ "pkg_resources"
      ∧ (fn ∈ st1.ignored_modules ∨ getTopLevelPackageName fn ∈ st1.ignored_modules) := by
    simp only [onModuleEncounter] at h
    split at h
    · simp at h
    · next htop =>
      refine ⟨htop, ?_⟩
      split at h
      · next hc =>
        simp only [Prod.mk.injEq] at h
        obtain ⟨-, hs, -⟩ := h
        rw [← hs]
        rcases Bool.or_eq_true_iff.mp hc with hc | hc
        · exact Or.inl (List.elem_iff.mp hc)
        · exact Or.inr (List.elem_iff.mp hc)
      · split at h
        · simp only [Prod.mk.injEq] at h
          obtain ⟨-, hs, -⟩ := h
          rw [← hs]
          exact Or.inl (mem_addOnce _ _)
        · split at h
          · simp at h
          · split at h
            · next d2 st2 m2 hloop =>
              simp only [Prod.mk.injEq] at h
              obtain ⟨hd, hs, -⟩ := h
              subst hd
              subst hs
              exact Or.inl (pluginLoop_drop_mem self fn st plugins 0 _ _ _ hloop)
            · split at h
              · simp at h
              · split at h
                · simp at h
                · split at h
                  · simp at h
                  · split at h
                    · simp at h
                    · split at h
                      · simp at h
                      · split at h
                        · split at h
                          · simp at h
                          · split at h
                            · simp at h
                            · simp only [Prod.mk.injEq] at h
                              obtain ⟨-, hs, -⟩ := h
                              rw [← hs]
                              exact Or.inl (mem_addOnce _ _)
                        · simp only [Prod.mk.injEq] at h
                          obtain ⟨-, hs, -⟩ := h
                          rw [← hs]
                          exact Or.inl (mem_addOnce _ _)
  have hc : (st1.ignored_modules.contains fn
      || st1.ignored_modules.contains (getTopLevelPackageName fn)) = true := by
    rcases hmem.2 with hm | hm
    · exact Bool.or_eq_true_iff.mpr (Or.inl (List.elem_iff.mpr hm))
    · exact Bool.or_eq_true_iff.mpr (Or.inr (List.elem_iff.mpr hm))
  simp only [onModuleEncounter]
  rw [if_neg hmem.1, if_pos hc]

/-- Witness for C9: dropping the unhinted module `a.b` once makes the next
query answer from the cache with zero delegate consultations. -/
theorem C9_policy_short_circuit_witness :
    onModuleEncounter "hinted-mods" [ip_plugin] [] []
        ⟨[], ["a.b"], some ip_plugin⟩ "f" "a.b"
      = (.drop "module is not used", ⟨[], ["a.b"], some ip_plugin⟩, 0) :=
  C9_policy_short_circuit "hinted-mods" [ip_plugin] [] [] st0 "f" "a.b"
    "module is not used" ⟨[], ["a.b"], some ip_plugin⟩ 1 rfl

/-!  Lemmas for the Reduction stage (claim C6).  The input of `clean_json`
is `sorted(list(set(...)))`, i.e. strictly sorted in the codepoint order,
which we express as `Pairwise strLt`. -/

/-- `lexLt` is irreflexive. -/
theorem lexLt_irrefl : ∀ l : List Char, lexLt l l = false
  | [] => rfl
  | a :: as => by simp [lexLt, lexLt_irrefl as]

/-- Strict lexicographic order entails inequality. -/
theorem strLt_ne {a b : String} (h : strLt a b) : a ≠ b := by
  intro he
  subst he
  have h' : lexLt a.data a.data = true := h
  rw [lexLt_irrefl] at h'
  exact absurd h' (by decide)

/-- Contiguity of a prefix block in lexicographic order: if
`p ++ "*" < x < b` and `p` is a prefix of `b`, then `p` is a prefix of `x`
as well (strings sharing the prefix `p` form a contiguous run above
`p ++ "*"`, because `*` precedes every character that can follow `p` in a
string having `p` as a proper prefix or continue a divergence). -/
theorem lex_contig : ∀ (p x b : List Char), lexLt (p ++ ['*']) x = true →
    lexLt x b = true → p.isPrefixOf b = true → p.isPrefixOf x = true
  | [], x, _ => fun _ _ _ => by cases x <;> rfl
  | c :: p', x, b => by
    intro hx hb hpb
    cases b with
    | nil => simp [List.isPrefixOf] at hpb
    | cons d b' =>
      simp only [List.isPrefixOf, Bool.and_eq_true, beq_iff_eq] at hpb
      obtain ⟨hcd, hpb'⟩ := hpb
      subst hcd
      cases x with
      | nil => exact absurd hx (by simp [lexLt])
      | cons e x' =>
        have hx' : lexLt (c :: (p' ++ ['*'])) (e :: x') = true := hx
        by_cases h1 : c < e
        · have h2 : ¬ e < c := fun hh => absurd h1 (lt_asymm hh)
          simp [lexLt, h1, h2] at hb
        · by_cases h2 : e < c
          · simp [lexLt, h1, h2] at hx'
          · have hce : c = e := le_antisymm (not_lt.mp h2) (not_lt.mp h1)
            subst hce
            simp only [lexLt, lt_self_iff_false, if_false] at hx' hb
            have hres := lex_contig p' x' b' hx' hb hpb'
            simp [List.isPrefixOf, hres]

/-- `lex_contig` at the level of the embedding's string primitives. -/
theorem sw_contig (q x b : String) (h1 : strLt (q ++ "*") x) (h2 : strLt x b)
    (h3 : sw b q = true) : sw x q = true := by
  have h1' : lexLt (q.data ++ ['*']) x.data = true := h1
  exact lex_contig q.data x.data b.data h1' h2 h3

/-- The wildcard pass produces a sublist of its input. -/
theorem pass1_sublist : ∀ (l : List String) (last : Option String), (pass1 last l).Sublist l := by
  intro l
  induction l with
  | nil => intro _; simp [pass1]
  | cons x xs ih =>
    intro last
    simp only [pass1]
    split
    · exact (ih last).trans (List.sublist_cons_self x xs)
    · exact List.Sublist.cons₂ x (ih _)

/-- Once the wildcard state holds `q` and every remaining entry lies above
`q ++ "*"` in the sort order, no surviving entry starts with `q`. -/
theorem pass1_avoid : ∀ (l : List String) (q : String),
    l.Pairwise strLt → (∀ y ∈ l, strLt (q ++ "*") y) →
    ∀ b ∈ pass1 (some q) l, sw b q = false := by
  intro l
  induction l with
  | nil => intro q _ _ b hb; simp [pass1] at hb
  | cons x xs ih =>
    intro q hp hgt b hb
    simp only [pass1] at hb
    by_cases hsw : sw x q = true
    · rw [if_pos hsw] at hb
      exact ih q (List.pairwise_cons.mp hp).2
        (fun y hy => hgt y (List.mem_cons_of_mem _ hy)) b hb
    · rw [if_neg hsw] at hb
      rcases List.mem_cons.mp hb with hb | hb
      · subst hb
        simpa using hsw
      · have hbxs : b ∈ xs := (pass1_sublist xs _).subset hb
        have h1 : strLt (q ++ "*") x := hgt x (List.mem_cons_self x xs)
        have h2 : strLt x b := (List.pairwise_cons.mp hp).1 b hbxs
        cases hbq : sw b q with
        | false => rfl
        | true => exact absurd (sw_contig q x b h1 h2 hbq) hsw

/-- `x[:-1] ++ "*" = x` for an entry `x` ending in `.*`. -/
theorem wildcard_eq (x : String) (h : ew x ".*" = true) : dropRightStr x 1 ++ "*" = x := by
  obtain ⟨d⟩ := x
  have hs : (['.', '*'] : List Char) <:+ d := by simpa [ew] using h
  rcases hs with ⟨pre, hpre⟩
  show String.mk (d.take (d.length - 1) ++ ['*']) = String.mk d
  apply congrArg String.mk
  subst hpre
  have hlen : (pre ++ ['.', '*']).length - 1 = pre.length + 1 := by
    simp [List.length_append]
  rw [hlen]
  rw [show (pre ++ ['.', '*'] : List Char) = (pre ++ ['.']) ++ ['*'] by simp]
  rw [List.take_left' (by simp [List.length_append])]

/-- On a strictly sorted input, the wildcard pass establishes the
no-violation invariant. -/
theorem pass1_noViol : ∀ (l : List String) (last : Option String),
    l.Pairwise strLt → NoViol (pass1 last l) := by
  intro l
  induction l with
  | nil => intro _ _; simp [pass1, NoViol]
  | cons x xs ih =>
    intro last hp
    simp only [pass1]
    split
    · exact ih last (List.pairwise_cons.mp hp).2
    · refine List.Pairwise.cons ?_ (ih _ (List.pairwise_cons.mp hp).2)
      intro b hb hwx
      rw [if_pos hwx] at hb
      refine pass1_avoid xs (dropRightStr x 1) (List.pairwise_cons.mp hp).2 ?_ b hb
      intro y hy
      rw [wildcard_eq x hwx]
      exact (List.pairwise_cons.mp hp).1 y hy

/-- On a no-violation list none of whose entries starts with `q`, the
wildcard pass with state `q` keeps everything. -/
theorem pass1_some_id : ∀ (l : List String) (q : String),
    NoViol l → (∀ b ∈ l, sw b q = false) → pass1 (some q) l = l := by
  intro l
  induction l with
  | nil => intro q _ _; simp [pass1]
  | cons x xs ih =>
    intro q hnv hq
    simp only [pass1]
    rw [if_neg (by simp [hq x (List.mem_cons_self x xs)])]
    by_cases hw : ew x ".*" = true
    · rw [if_pos hw]
      exact congrArg (x :: ·)
        (ih (dropRightStr x 1) (List.pairwise_cons.mp hnv).2
          (fun b hb => (List.pairwise_cons.mp hnv).1 b hb hw))
    · rw [if_neg hw]
      exact congrArg (x :: ·)
        (ih q (List.pairwise_cons.mp hnv).2
          (fun b hb => hq b (List.mem_cons_of_mem _ hb)))

/-- On a no-violation list, the wildcard pass is the identity. -/
theorem pass1_none_id : ∀ (l : List String), NoViol l → pass1 none l = l := by
  intro l
  induction l with
  | nil => intro _; simp [pass1]
  | cons x xs ih =>
    intro hnv
    simp only [pass1]
    rw [if_neg (by simp)]
    by_cases hw : ew x ".*" = true
    · rw [if_pos hw]
      exact congrArg (x :: ·)
        (pass1_some_id xs (dropRightStr x 1) (List.pairwise_cons.mp hnv).2
          (fun b hb => (List.pairwise_cons.mp hnv).1 b hb hw))
    · rw [if_neg hw]
      exact congrArg (x :: ·) (ih (List.pairwise_cons.mp hnv).2)

/-- Removing the elements of `ts` one by one from a duplicate-free list is
the same as filtering them out. -/
theorem foldl_erase_eq_filter : ∀ (ts l : List String), l.Nodup →
    ts.foldl (fun acc x => acc.erase x) l = l.filter (fun a => !ts.contains a) := by
  intro ts
  induction ts with
  | nil =>
    intro l _
    simp
  | cons t ts ih =>
    intro l hnd
    simp only [List.foldl_cons]
    rw [ih (l.erase t) (hnd.erase t)]
    rw [List.Nodup.erase_eq_filter hnd]
    rw [List.filter_filter]
    apply List.filter_congr
    intro a _
    simp only [List.contains_cons, Bool.not_or, bne]
    rw [Bool.and_comm]

/-- C6 (confirmed): on a lexicographically sorted, duplicate-free call
list, the reduction stage is idempotent — running `clean_json` on its own
output removes nothing further. -/
theorem C6_reduction_idempotent (X : List String) (h : X.Pairwise strLt) :
    clean_json (clean_json X) = clean_json X := by
  have hsub : (pass1 none X).Sublist X := pass1_sublist X none
  have hPp : (pass1 none X).Pairwise strLt := List.Pairwise.sublist hsub h
  have hPnd : (pass1 none X).Nodup := hPp.imp (fun hab => strLt_ne hab)
  have hPnv : NoViol (pass1 none X) := pass1_noViol X none h
  have hclean : clean_json X = (pass1 none X).filter
      (fun a => !((pass1 none X).filter
        (fun x => (pass1 none X).contains (x ++ ".*"))).contains a) :=
    foldl_erase_eq_filter _ _ hPnd
  have hRsub : (clean_json X).Sublist (pass1 none X) := by
    rw [hclean]; exact List.filter_sublist _
  have hRnv : NoViol (clean_json X) := List.Pairwise.sublist hRsub hPnv
  have hmemR : ∀ a ∈ clean_json X, (pass1 none X).contains (a ++ ".*") = false := by
    intro a ha
    rw [hclean] at ha
    have hm := List.mem_filter.mp ha
    cases hcc : (pass1 none X).contains (a ++ ".*") with
    | false => rfl
    | true =>
      exfalso
      have hmem : a ∈ (pass1 none X).filter
          (fun x => (pass1 none X).contains (x ++ ".*")) :=
        List.mem_filter.mpr ⟨hm.1, hcc⟩
      have hco := List.elem_eq_true_of_mem hmem
      have := hm.2
      simp [List.contains, hco] at this
      rcases this with h1 | h1
      · exact h1 hm.1
      · exact h1 (List.elem_iff.mp hcc)
  have hpair : ∀ a ∈ clean_json X, (clean_json X).contains (a ++ ".*") = false := by
    intro a ha
    cases hcc : (clean_json X).contains (a ++ ".*") with
    | false => rfl
    | true =>
      exfalso
      have hmem : a ++ ".*" ∈ pass1 none X :=
        hRsub.subset (List.elem_iff.mp hcc)
      have hco := List.elem_eq_true_of_mem hmem
      have := hmemR a ha
      simp [List.contains, hco] at this
      exact this hmem
  have hid : pass1 none (clean_json X) = clean_json X := pass1_none_id _ hRnv
  have hkey : clean_json (clean_json X) =
      ((pass1 none (clean_json X)).filter
        (fun x => (pass1 none (clean_json X)).contains (x ++ ".*"))).foldl
        (fun l x => l.erase x) (pass1 none (clean_json X)) := rfl
  rw [hkey, hid]
  have hnil : (clean_json X).filter (fun x => (clean_json X).contains (x ++ ".*")) = [] := by
    apply List.filter_eq_nil_iff.mpr
    intro a ha
    rw [hpair a ha]
    decide
  rw [hnil]
  rfl

/-- Witness for C6: idempotence on a concrete sorted, duplicate-free call
list containing wildcard redundancies. -/
theorem C6_reduction_idempotent_witness :
    clean_json (clean_json ["a", "a.*", "a.b", "a.b.*", "b", "b.c"])
      = clean_json ["a", "a.*", "a.b", "a.b.*", "b", "b.c"] :=
  C6_reduction_idempotent ["a", "a.*", "a.b", "a.b.*", "b", "b.c"] (by decide)

end Hints
